import Mathlib

/-!
Verification of the timberlea-upload-tool installer (src/main.go).

The Go program is a linear installer pipeline:
  getLatestOllamaVersion : HTTP GET + JSON decode of the tag_name field,
  getDownloadURL         : pure URL formatting,
  installOllama          : curl / mkdir / tar / mv / chmod sequence with
                           early-exit error handling,
  updatePath             : idempotent PATH-export insertion into one of four
                           shell configuration files,
  appendToFile           : append helper used by updatePath.

The shallow embedding below models file contents as lists of characters
(`List Char`), the home directory's files as a partial map from file name to
content, external process exits as booleans supplied by a `World`, and the
network as a stream of responses whose bodies are abstracted to their JSON
parse result.
-/

/-! ### Strings as character lists: prefix, substring, line splitting

Go's `strings.Contains` and `bufio.Scanner` (line splitting on the newline
character) are modelled over `List Char`. -/

/-- Boolean prefix test on character lists (first argument is the candidate
prefix). -/
def hasPrefixB : List Char → List Char → Bool
  | [], _ => true
  | _ :: _, [] => false
  | a :: as, b :: bs => a == b && hasPrefixB as bs

/-- Model of Go `strings.Contains s pat`: `pat` occurs as a contiguous
substring of the second argument. -/
def containsSub (pat : List Char) : List Char → Bool
  | [] => pat.isEmpty
  | c :: r => hasPrefixB pat (c :: r) || containsSub pat r

/-- Split a character list into lines at newline characters, the way
`bufio.Scanner` enumerates the lines of a file.  The empty content has one
empty line; a trailing newline yields a trailing empty line. -/
def splitLines : List Char → List (List Char)
  | [] => [[]]
  | c :: cs =>
    if c = '\n' then [] :: splitLines cs
    else (c :: (splitLines cs).headI) :: (splitLines cs).tail

/-! ### The shell-configuration filesystem model

`FS` models the user's home directory as seen by `updatePath`: `contents f`
is `some c` when the file named `f` exists and `os.Open` succeeds with
content `c`, and `none` when it does not exist (the source joins each name
to the home directory with `filepath.Join`; the map is keyed by the file
name relative to that directory).  `writable f` abstracts whether
`os.OpenFile(..., O_APPEND|O_CREATE|O_WRONLY, 0644)` followed by
`WriteString` succeeds on `f`. -/

structure FS where
  contents : String → Option (List Char)
  writable : String → Bool

/-- The exact export line of src/main.go line 102. -/
def pathExport : String := "export PATH=\"$HOME/bin:$PATH\""

/-- The export line as a character list. -/
def pathExportL : List Char := pathExport.data

/-- The candidate shell configuration files, in the order of src/main.go
line 105. -/
def configFiles : List String := [".zshrc", ".bash_profile", ".bashrc", ".profile"]

/-- The filesystem after a successful append of `content` to `filePath`:
Go's `appendToFile` opens with `O_CREATE` (a missing file behaves as empty)
and writes the string `"\n" + content + "\n"` at the end. -/
def writeAppended (fs : FS) (filePath : String) (content : List Char) : FS :=
  { fs with
    contents := fun g =>
      if g = filePath then
        some (((fs.contents filePath).getD []) ++ ('\n' :: (content ++ ['\n'])))
      else fs.contents g }

/-- Model of `appendToFile` (src/main.go lines 161-173): returns the updated
filesystem on success and `none` when the open or write fails. -/
def appendToFile (fs : FS) (filePath : String) (content : List Char) : Option FS :=
  if fs.writable filePath then some (writeAppended fs filePath content) else none

/-- Model of `fileExists` (src/main.go lines 156-159). -/
def fileExists (fs : FS) (filename : String) : Bool :=
  (fs.contents filename).isSome

/-- Whether one line of a file triggers the presence check of src/main.go
line 114: `strings.Contains(scanner.Text(), pathExport)`. -/
def matchLine (l : List Char) : Bool := containsSub pathExportL l

/-- Whether some line of a file content contains the export line. -/
def linePresent (c : List Char) : Bool := (splitLines c).any matchLine

/-- The scan of src/main.go lines 111-120 applied to one candidate file:
an unopenable (absent) file never reports the line. -/
def fileHasLine (fs : FS) (f : String) : Bool :=
  match fs.contents f with
  | some c => linePresent c
  | none => false

/-- Model of `updatePath` (src/main.go lines 101-154).  Phase one scans the
four candidates and succeeds without writing when any existing file has a
line containing the export string.  Phase two appends: `.zshrc` only when it
exists, then `.bash_profile`, `.bashrc` and `.profile` unconditionally
(created if absent), stopping at the first success; every failure falls
through to the next candidate.  The boolean is `true` exactly when the Go
function returns a nil error. -/
def updatePath (fs : FS) : FS × Bool :=
  if configFiles.any (fun f => fileHasLine fs f) then (fs, true)
  else
    match (if fileExists fs ".zshrc" then appendToFile fs ".zshrc" pathExportL else none) with
    | some fs1 => (fs1, true)
    | none =>
      match appendToFile fs ".bash_profile" pathExportL with
      | some fs1 => (fs1, true)
      | none =>
        match appendToFile fs ".bashrc" pathExportL with
        | some fs1 => (fs1, true)
        | none =>
          match appendToFile fs ".profile" pathExportL with
          | some fs1 => (fs1, true)
          | none => (fs, false)

/-- Number of lines of one content that contain the export string. -/
def countLines (c : List Char) : Nat := ((splitLines c).filter matchLine).length

/-- Number of matching lines of one candidate file (0 when absent). -/
def fileCount (fs : FS) (f : String) : Nat :=
  match fs.contents f with
  | some c => countLines c
  | none => 0

/-- Total number of lines containing the export string across the four
candidate files. -/
def countOcc (fs : FS) : Nat := (configFiles.map (fileCount fs)).sum

/-! ### The installer model

`installOllama` (src/main.go lines 40-99) spawns external processes and
performs filesystem operations.  The embedding records the sequence of
operations as a trace of `Cmd` values carrying exactly the argument paths
the source builds with `filepath.Join`, and takes the success of each
checked step from a `World`.  The `os.RemoveAll`/`os.MkdirAll` calls on the
scratch directory (lines 62-63) have their errors discarded in the source,
so they carry no success flag; `os.MkdirAll` on the bin directory (line 56)
is checked and does. -/

/-- Model of Go `filepath.Join` on two components at the call sites of the
source: no component is empty except possibly the first, and none carries a
trailing slash, so joining is plain concatenation with a separator, and a
leading empty component is dropped. -/
def goJoin (a b : String) : String := if a = "" then b else a ++ "/" ++ b

/-- One recorded operation of the installer. -/
inductive Cmd where
  | curl (url : String) (dest : String)
  | mkdirAll (dir : String)
  | removeAll (dir : String)
  | tar (archive : String) (dest : String)
  | mv (src : String) (dest : String)
  | chmod (target : String)
  | removeFile (f : String)
  | updatePathCall (homeDir : String)
deriving DecidableEq

/-- Environment of one installer run: the result of `os.UserHomeDir`
(`none` models a lookup error, in which case Go's `os.UserHomeDir` returns
the empty string alongside the error), the exit status of each checked
step, and the shell-configuration files seen by `updatePath`. -/
structure World where
  userHome : Option String
  curlOk : Bool
  mkdirBinOk : Bool
  tarOk : Bool
  mvOk : Bool
  chmodOk : Bool
  shellFS : FS

/-- Outcome of one installer run: the operation trace, the
shell-configuration files after the run, whether the PATH-update warning
was printed (src/main.go line 93), and whether the function returned nil. -/
structure InstallResult where
  trace : List Cmd
  shellFS : FS
  pathWarn : Bool
  ok : Bool

/-- The home directory string the source continues with: the looked-up
directory, or the empty string when `os.UserHomeDir` errs (its error is
discarded at src/main.go line 42). -/
def resolvedHome (w : World) : String :=
  match w.userHome with
  | some d => d
  | none => ""

/-- Model of `installOllama` (src/main.go lines 40-99): download, bin
directory creation, scratch reset, extraction, relocation, permission
change, cleanup, PATH update.  Each checked step that fails returns an
error immediately with the trace up to that step; the PATH-update failure
is downgraded to a warning and the function still returns nil. -/
def installOllama (w : World) (url : String) : InstallResult :=
  let homeDir := resolvedHome w
  let tempFile := goJoin homeDir "ollama.tgz"
  let t1 := [Cmd.curl url tempFile]
  if w.curlOk then
    let binDir := goJoin homeDir "bin"
    let t2 := t1 ++ [Cmd.mkdirAll binDir]
    if w.mkdirBinOk then
      let tempDir := goJoin homeDir "ollama-extract"
      let t3 := t2 ++ [Cmd.removeAll tempDir, Cmd.mkdirAll tempDir]
      let t4 := t3 ++ [Cmd.tar tempFile tempDir]
      if w.tarOk then
        let finalPath := goJoin binDir "ollama"
        let t5 := t4 ++ [Cmd.mv (goJoin (goJoin tempDir "bin") "ollama") finalPath]
        if w.mvOk then
          let t6 := t5 ++ [Cmd.chmod finalPath]
          if w.chmodOk then
            let t7 := t6 ++ [Cmd.removeFile tempFile, Cmd.removeAll tempDir]
            let r := updatePath w.shellFS
            ⟨t7 ++ [Cmd.updatePathCall homeDir], r.1, !r.2, true⟩
          else ⟨t6, w.shellFS, false, false⟩
        else ⟨t5, w.shellFS, false, false⟩
      else ⟨t4, w.shellFS, false, false⟩
    else ⟨t2, w.shellFS, false, false⟩
  else ⟨t1, w.shellFS, false, false⟩

/-- Whether a trace entry is the relocation (`mv`) step. -/
def isMvCmd : Cmd → Bool
  | Cmd.mv _ _ => true
  | _ => false

/-- Whether a trace entry is the permission (`chmod`) step. -/
def isChmodCmd : Cmd → Bool
  | Cmd.chmod _ => true
  | _ => false

/-! ### The version resolver model

`getLatestOllamaVersion` (src/main.go lines 20-33) issues one HTTP GET and
decodes the body into `GitHubRelease{ TagName string `json:"tag_name"` }`.
The response body is abstracted to its JSON parse outcome; the decoding of
the parsed value into the struct follows Go's `encoding/json`: a top-level
object assigns in order every key that matches the field name `tag_name`
under the package's case-insensitive name folding (later occurrences
overwrite; a `null` value is a no-op; a value that is neither a string nor
null is a decode error; no matching key leaves the zero value `""`), a
top-level `null` leaves the zero value, and any other top-level value is a
decode error.  `encoding/json` saves the first error and keeps scanning, so
a run errs exactly when some matching key carries a bad value, which the
early-return fold below reproduces. -/

/-- Parsed JSON values. -/
inductive Json where
  | null
  | bool (b : Bool)
  | num (n : Int)
  | str (s : String)
  | arr (elems : List Json)
  | obj (fields : List (String × Json))

/-- The struct the source decodes into (src/main.go lines 16-18). -/
structure GitHubRelease where
  tagName : String

/-- ASCII lowercasing, the fragment of `encoding/json`'s case folding that
covers the ASCII field keys involved here. -/
def foldChar (c : Char) : Char :=
  if 'A' ≤ c ∧ c ≤ 'Z' then Char.ofNat (c.toNat + 32) else c

/-- Model of `encoding/json`'s case-insensitive field-name matching: two
keys match when they agree after case folding (restricted to ASCII
folding; every key these claims touch is ASCII). -/
def jsonNameEq (a b : String) : Bool :=
  a.data.map foldChar == b.data.map foldChar

/-- Whether a JSON value is a string. -/
def isStrVal : Json → Bool
  | Json.str _ => true
  | _ => false

/-- Whether a JSON value is null. -/
def isNullVal : Json → Bool
  | Json.null => true
  | _ => false

/-- A field that makes decoding into `GitHubRelease` fail: its key matches
`tag_name` case-insensitively and its value is neither a string (which
assigns) nor null (which is a no-op). -/
def badTagField (p : String × Json) : Bool :=
  jsonNameEq p.1 "tag_name" && !isStrVal p.2 && !isNullVal p.2

/-- Fold Go's field-by-field decoding of a JSON object into the
`GitHubRelease` struct: every key matching `tag_name` case-insensitively
overwrites the accumulated value when its value is a string, is skipped
when its value is null, and is a decode error otherwise; every
non-matching key is ignored. -/
def decodeFieldsTag : List (String × Json) → String → Except String String
  | [], acc => Except.ok acc
  | (k, v) :: rest, acc =>
    if jsonNameEq k "tag_name" then
      match v with
      | Json.str s => decodeFieldsTag rest s
      | Json.null => decodeFieldsTag rest acc
      | _ => Except.error "cannot unmarshal value into field TagName of type string"
    else decodeFieldsTag rest acc

/-- Decode a parsed JSON body into `GitHubRelease`, following Go's
`json.Decoder.Decode` on this struct type. -/
def decodeGitHubRelease : Json → Except String GitHubRelease
  | Json.obj fields => (decodeFieldsTag fields "").map (fun s => ⟨s⟩)
  | Json.null => Except.ok ⟨""⟩
  | _ => Except.error "cannot unmarshal value into GitHubRelease"

/-- Outcome of one network fetch: the GET itself fails, the GET succeeds
but the body is not valid JSON, or the body parses to a JSON value. -/
inductive NetResult where
  | fetchErr
  | badJson
  | body (j : Json)

/-- Model of `getLatestOllamaVersion` (src/main.go lines 20-33) against a
stream of network responses: a single GET consumes response 0; a fetch
error or a decode error is returned immediately, otherwise the decoded
`tagName` is returned unmodified. -/
def getLatestOllamaVersion (net : Nat → NetResult) : Except String String :=
  match net 0 with
  | NetResult.fetchErr => Except.error "failed to fetch latest release"
  | NetResult.badJson => Except.error "failed to decode response"
  | NetResult.body j =>
    match decodeGitHubRelease j with
    | Except.error _ => Except.error "failed to decode response"
    | Except.ok r => Except.ok r.tagName

/-- Whether an `Except` result is a success. -/
def exceptIsOk : Except String String → Bool
  | Except.ok _ => true
  | Except.error _ => false

/-- Whether decoding a parsed JSON body into the release struct fails. -/
def decodeFails (j : Json) : Bool :=
  match decodeGitHubRelease j with
  | Except.ok _ => false
  | Except.error _ => true

/-! ### The URL builder -/

/-- Model of `getDownloadURL` (src/main.go lines 35-38): the
`fmt.Sprintf` format string has one `%s` verb, so the result is the fixed
prefix, the version, and the fixed asset suffix concatenated. -/
def getDownloadURL (version : String) : String :=
  "https://github.com/ollama/ollama/releases/download/" ++ version ++ "/ollama-linux-amd64.tgz"

/-! ### Concrete home directories used in the closed statements below -/

/-- A home directory with a candidate file whose only line is the export
line itself. -/
def fsWithLine : FS :=
  { contents := fun f => if f = ".zshrc" then some pathExportL else none,
    writable := fun _ => true }

/-- A home directory with no shell configuration files, everything
writable. -/
def fsEmptyAll : FS :=
  { contents := fun _ => none, writable := fun _ => true }

/-- A home directory whose .bashrc consists of one commented-out export
line; nothing is writable. -/
def fsCommented : FS :=
  { contents := fun f =>
      if f = ".bashrc" then some ("# export PATH=\"$HOME/bin:$PATH\"".data) else none,
    writable := fun _ => false }

/-- A home directory where .bashrc exists (empty) and no other candidate
does; everything writable. -/
def fsOnlyBashrc : FS :=
  { contents := fun f => if f = ".bashrc" then some [] else none,
    writable := fun _ => true }

/-- A home directory with no shell configuration files where nothing can be
created or written. -/
def fsNoWrite : FS :=
  { contents := fun _ => none, writable := fun _ => false }

/-! ### Lemmas about line splitting and counting -/

theorem splitLines_ne_nil (u : List Char) : splitLines u ≠ [] := by
  cases u with
  | nil => simp [splitLines]
  | cons c cs => simp only [splitLines]; split <;> simp

theorem splitLines_append_newline (u v : List Char) :
    splitLines (u ++ '\n' :: v) = splitLines u ++ splitLines v := by
  induction u with
  | nil => simp [splitLines]
  | cons c cs ih =>
    by_cases hc : c = '\n'
    · subst hc
      simp [splitLines, ih]
    · obtain ⟨l, ls, hls⟩ := List.exists_cons_of_ne_nil (splitLines_ne_nil cs)
      simp [splitLines, hc, ih, hls]

theorem splitLines_export : splitLines pathExportL = [pathExportL] := by decide

theorem countLines_append_export (old : List Char) :
    countLines (old ++ '\n' :: (pathExportL ++ ['\n'])) = countLines old + 1 := by
  have h2 : old ++ '\n' :: (pathExportL ++ ['\n'])
      = old ++ '\n' :: (pathExportL ++ '\n' :: ([] : List Char)) := by simp
  rw [h2]
  simp only [countLines, splitLines_append_newline, splitLines_export]
  have hm : matchLine pathExportL = true := by decide
  have hm0 : matchLine ([] : List Char) = false := by decide
  simp [List.filter_append, List.filter, hm, hm0, splitLines]

theorem linePresent_append_export (old : List Char) :
    linePresent (old ++ '\n' :: (pathExportL ++ ['\n'])) = true := by
  have h2 : old ++ '\n' :: (pathExportL ++ ['\n'])
      = old ++ '\n' :: (pathExportL ++ '\n' :: ([] : List Char)) := by simp
  rw [h2]
  simp only [linePresent, splitLines_append_newline, splitLines_export]
  have hm : matchLine pathExportL = true := by decide
  simp [List.any_append, hm]

/-! ### Lemmas about the filesystem model -/

theorem countLines_getD (fs : FS) (f : String) :
    countLines ((fs.contents f).getD []) = fileCount fs f := by
  cases h : fs.contents f with
  | none =>
    simp only [fileCount, h, Option.getD_none]
    decide
  | some c => simp [fileCount, h]

theorem fileCount_writeAppended_self (fs : FS) (f : String) :
    fileCount (writeAppended fs f pathExportL) f = fileCount fs f + 1 := by
  simp [fileCount, writeAppended, countLines_append_export, countLines_getD]

theorem fileCount_writeAppended_other (fs : FS) (f g : String) (h : g ≠ f) :
    fileCount (writeAppended fs f pathExportL) g = fileCount fs g := by
  simp [fileCount, writeAppended, h]

theorem fileHasLine_writeAppended_self (fs : FS) (f : String) :
    fileHasLine (writeAppended fs f pathExportL) f = true := by
  simp [fileHasLine, writeAppended, linePresent_append_export]

theorem countOcc_expand (fs : FS) :
    countOcc fs = fileCount fs ".zshrc" + fileCount fs ".bash_profile"
      + fileCount fs ".bashrc" + fileCount fs ".profile" := by
  simp [countOcc, configFiles]
  omega

theorem any_expand (fs : FS) :
    configFiles.any (fun f => fileHasLine fs f)
      = (fileHasLine fs ".zshrc" || fileHasLine fs ".bash_profile"
        || fileHasLine fs ".bashrc" || fileHasLine fs ".profile") := by
  simp [configFiles, Bool.or_assoc]

theorem linePresent_false_of_countLines_zero (c : List Char) (h : countLines c = 0) :
    linePresent c = false := by
  simp only [countLines, List.length_eq_zero] at h
  simp only [linePresent, List.any_eq_false]
  intro l hl
  have := List.filter_eq_nil_iff.mp h l hl
  simpa using this

theorem fileHasLine_false_of_fileCount_zero (fs : FS) (f : String) (h : fileCount fs f = 0) :
    fileHasLine fs f = false := by
  cases hc : fs.contents f with
  | none => simp [fileHasLine, hc]
  | some c =>
    simp only [fileCount, hc] at h
    simp [fileHasLine, hc, linePresent_false_of_countLines_zero c h]

theorem any_false_of_countOcc_zero (fs : FS) (h : countOcc fs = 0) :
    configFiles.any (fun f => fileHasLine fs f) = false := by
  rw [countOcc_expand] at h
  have e1 : fileHasLine fs ".zshrc" = false :=
    fileHasLine_false_of_fileCount_zero fs _ (by omega)
  have e2 : fileHasLine fs ".bash_profile" = false :=
    fileHasLine_false_of_fileCount_zero fs _ (by omega)
  have e3 : fileHasLine fs ".bashrc" = false :=
    fileHasLine_false_of_fileCount_zero fs _ (by omega)
  have e4 : fileHasLine fs ".profile" = false :=
    fileHasLine_false_of_fileCount_zero fs _ (by omega)
  rw [any_expand, e1, e2, e3, e4]
  rfl

/-- Characterization of the fallback phase of `updatePath`: with no
candidate already containing the line, the written file is determined by
`.zshrc` existence and the writability flags, in the source's order. -/
theorem updatePath_eq (fs : FS)
    (h : configFiles.any (fun f => fileHasLine fs f) = false) :
    updatePath fs =
      if fileExists fs ".zshrc" && fs.writable ".zshrc" then
        (writeAppended fs ".zshrc" pathExportL, true)
      else if fs.writable ".bash_profile" then
        (writeAppended fs ".bash_profile" pathExportL, true)
      else if fs.writable ".bashrc" then
        (writeAppended fs ".bashrc" pathExportL, true)
      else if fs.writable ".profile" then
        (writeAppended fs ".profile" pathExportL, true)
      else (fs, false) := by
  by_cases h1 : fileExists fs ".zshrc" <;>
    by_cases h2 : fs.writable ".zshrc" <;>
      by_cases h3 : fs.writable ".bash_profile" <;>
        by_cases h4 : fs.writable ".bashrc" <;>
          by_cases h5 : fs.writable ".profile" <;>
            simp [updatePath, appendToFile, h, h1, h2, h3, h4, h5]

/-- After a successful append of the export line to any candidate file of a
filesystem that contained no occurrence, the total count is one and a
second `updatePath` run is a successful no-op. -/
theorem writeAppended_success (fs : FS) (f : String) (hf : f ∈ configFiles)
    (h0 : countOcc fs = 0) :
    countOcc (writeAppended fs f pathExportL) = 1 ∧
      updatePath (writeAppended fs f pathExportL) = (writeAppended fs f pathExportL, true) := by
  constructor
  · rw [countOcc_expand] at h0
    have hmem : f = ".zshrc" ∨ f = ".bash_profile" ∨ f = ".bashrc" ∨ f = ".profile" := by
      simpa [configFiles] using hf
    rcases hmem with h | h | h | h
    · subst h
      rw [countOcc_expand, fileCount_writeAppended_self,
        fileCount_writeAppended_other fs ".zshrc" ".bash_profile" (by decide),
        fileCount_writeAppended_other fs ".zshrc" ".bashrc" (by decide),
        fileCount_writeAppended_other fs ".zshrc" ".profile" (by decide)]
      omega
    · subst h
      rw [countOcc_expand, fileCount_writeAppended_self,
        fileCount_writeAppended_other fs ".bash_profile" ".zshrc" (by decide),
        fileCount_writeAppended_other fs ".bash_profile" ".bashrc" (by decide),
        fileCount_writeAppended_other fs ".bash_profile" ".profile" (by decide)]
      omega
    · subst h
      rw [countOcc_expand, fileCount_writeAppended_self,
        fileCount_writeAppended_other fs ".bashrc" ".zshrc" (by decide),
        fileCount_writeAppended_other fs ".bashrc" ".bash_profile" (by decide),
        fileCount_writeAppended_other fs ".bashrc" ".profile" (by decide)]
      omega
    · subst h
      rw [countOcc_expand, fileCount_writeAppended_self,
        fileCount_writeAppended_other fs ".profile" ".zshrc" (by decide),
        fileCount_writeAppended_other fs ".profile" ".bash_profile" (by decide),
        fileCount_writeAppended_other fs ".profile" ".bashrc" (by decide)]
      omega
  · have hline := fileHasLine_writeAppended_self fs f
    have hany : configFiles.any (fun g => fileHasLine (writeAppended fs f pathExportL) g) = true :=
      List.any_eq_true.mpr ⟨f, hf, hline⟩
    simp [updatePath, hany]

/-! ### Lemmas about JSON decoding -/

theorem decodeFieldsTag_nulls (fields : List (String × Json))
    (h : ∀ a b, (a, b) ∈ fields → jsonNameEq a "tag_name" = true → b = Json.null)
    (acc : String) :
    decodeFieldsTag fields acc = Except.ok acc := by
  induction fields generalizing acc with
  | nil => rfl
  | cons kv rest ih =>
    obtain ⟨k, v⟩ := kv
    by_cases hk : jsonNameEq k "tag_name" = true
    · have hv : v = Json.null := h k v (by simp) hk
      subst hv
      simp only [decodeFieldsTag, if_pos hk]
      exact ih (fun a b hab => h a b (List.mem_cons_of_mem _ hab)) acc
    · simp only [decodeFieldsTag, if_neg hk]
      exact ih (fun a b hab => h a b (List.mem_cons_of_mem _ hab)) acc

theorem decodeFieldsTag_found (fields : List (String × Json)) (k : String) (s : String)
    (hf : fields.filter (fun p => jsonNameEq p.1 "tag_name") = [(k, Json.str s)]) :
    decodeFieldsTag fields "" = Except.ok s := by
  induction fields with
  | nil => simp at hf
  | cons kv rest ih =>
    obtain ⟨k0, v⟩ := kv
    by_cases hk : jsonNameEq k0 "tag_name" = true
    · simp [List.filter_cons, hk] at hf
      obtain ⟨⟨hk0, hv⟩, hrest⟩ := hf
      subst hv
      simp only [decodeFieldsTag, if_pos hk]
      exact decodeFieldsTag_nulls rest
        (fun a b hab hm => absurd hm (by simp [hrest a b hab])) s
    · simp only [List.filter_cons] at hf
      rw [if_neg (by simpa using hk)] at hf
      simp only [decodeFieldsTag, if_neg hk]
      exact ih hf

theorem decodeFieldsTag_error_iff (fields : List (String × Json)) (acc : String) :
    exceptIsOk (decodeFieldsTag fields acc) = !fields.any badTagField := by
  induction fields generalizing acc with
  | nil => rfl
  | cons kv rest ih =>
    obtain ⟨k, v⟩ := kv
    by_cases hk : jsonNameEq k "tag_name" = true
    · cases v with
      | null => simp [decodeFieldsTag, hk, badTagField, isStrVal, isNullVal, ih]
      | str s => simp [decodeFieldsTag, hk, badTagField, isStrVal, isNullVal, ih]
      | bool b => simp [decodeFieldsTag, hk, badTagField, isStrVal, isNullVal, exceptIsOk]
      | num n => simp [decodeFieldsTag, hk, badTagField, isStrVal, isNullVal, exceptIsOk]
      | arr elems => simp [decodeFieldsTag, hk, badTagField, isStrVal, isNullVal, exceptIsOk]
      | obj fs => simp [decodeFieldsTag, hk, badTagField, isStrVal, isNullVal, exceptIsOk]
    · have hk' : jsonNameEq k "tag_name" = false := by simpa using hk
      simp [decodeFieldsTag, hk', badTagField, ih]

/-- C4 counterexample: encoding/json matches field names case-insensitively
with later matches overwriting, so for a body that contains the tag_name
string field "v1" together with a later key Tag_Name holding "v2", the
program returns "v2", not the tag_name field's string "v1": the other
field was not ignored. -/
theorem getLatestOllamaVersion_case_fold :
    getLatestOllamaVersion (fun _ => NetResult.body (Json.obj
      [("tag_name", Json.str "v1"), ("Tag_Name", Json.str "v2")])) = Except.ok "v2"
    ∧ (Except.ok "v2" : Except String String) ≠ Except.ok "v1"
    ∧ jsonNameEq "Tag_Name" "tag_name" = true :=
  ⟨rfl, fun h => absurd (Except.ok.inj h) (by decide), by decide⟩

/-- C4 (amended): for every network response whose body is a valid JSON
object with exactly one field whose key matches tag_name under
encoding/json's case-insensitive name matching, that field holding the
string s, getLatestOllamaVersion returns exactly s, unmodified, regardless
of all the non-matching fields of the object. -/
theorem getLatestOllamaVersion_tag (net : Nat → NetResult)
    (fields : List (String × Json)) (k : String) (s : String)
    (hnet : net 0 = NetResult.body (Json.obj fields))
    (hf : fields.filter (fun p => jsonNameEq p.1 "tag_name") = [(k, Json.str s)]) :
    getLatestOllamaVersion net = Except.ok s := by
  simp [getLatestOllamaVersion, hnet, decodeGitHubRelease, Except.map,
    decodeFieldsTag_found fields k s hf]

/-- C4 witness: a response carrying tag_name "v0.5.2" among other,
non-matching fields resolves to exactly "v0.5.2". -/
theorem getLatestOllamaVersion_tag_witness :
    getLatestOllamaVersion (fun _ => NetResult.body (Json.obj
      [("name", Json.str "ollama release"), ("tag_name", Json.str "v0.5.2"),
        ("prerelease", Json.bool false)])) = Except.ok "v0.5.2" :=
  getLatestOllamaVersion_tag _ _ _ _ rfl rfl

/-- C5 counterexample: the body is a valid JSON object with no tag-name
field, yet getLatestOllamaVersion succeeds (with the zero value "") instead
of failing as the claim requires. -/
theorem getLatestOllamaVersion_missing_field :
    getLatestOllamaVersion (fun _ => NetResult.body (Json.obj [])) = Except.ok ""
    ∧ (([] : List (String × Json)).any (fun p => p.1 == "tag_name")) = false :=
  ⟨rfl, rfl⟩

/-- C5 (amended): getLatestOllamaVersion fails exactly when the network
call errors, the body is not valid JSON, or the parsed JSON does not decode
into the release struct; for an object body the decode fails exactly when
some field whose key matches tag_name case-insensitively holds a value that
is neither a string nor null; an object body all of whose matching fields
are null (in particular one lacking any matching field) succeeds with the
empty string; the result depends only on the first network response
(single-shot, no retry). -/
theorem getLatestOllamaVersion_error_spec (net net' : Nat → NetResult) :
    (exceptIsOk (getLatestOllamaVersion net) = false ↔
      net 0 = NetResult.fetchErr ∨ net 0 = NetResult.badJson ∨
        ∃ j, net 0 = NetResult.body j ∧ decodeFails j = true)
    ∧ (∀ fields, net 0 = NetResult.body (Json.obj fields) →
        (exceptIsOk (getLatestOllamaVersion net) = false ↔
          fields.any badTagField = true))
    ∧ (net 0 = net' 0 → getLatestOllamaVersion net = getLatestOllamaVersion net')
    ∧ (∀ fields, net 0 = NetResult.body (Json.obj fields) →
        (∀ a b, (a, b) ∈ fields → jsonNameEq a "tag_name" = true → b = Json.null) →
        getLatestOllamaVersion net = Except.ok "") := by
  refine ⟨?_, ?_, ?_, ?_⟩
  · cases hn : net 0 with
    | fetchErr => simp [getLatestOllamaVersion, hn, exceptIsOk]
    | badJson => simp [getLatestOllamaVersion, hn, exceptIsOk]
    | body j =>
      cases hd : decodeGitHubRelease j with
      | ok r => simp [getLatestOllamaVersion, hn, hd, exceptIsOk, decodeFails]
      | error e => simp [getLatestOllamaVersion, hn, hd, exceptIsOk, decodeFails]
  · intro fields hn
    have hb := decodeFieldsTag_error_iff fields ""
    cases hd : decodeFieldsTag fields "" with
    | ok s =>
      rw [hd] at hb
      have hany : fields.any badTagField = false := by simpa [exceptIsOk] using hb.symm
      simp [getLatestOllamaVersion, hn, decodeGitHubRelease, hd, Except.map,
        exceptIsOk, hany]
    | error e =>
      rw [hd] at hb
      have hany : fields.any badTagField = true := by simpa [exceptIsOk] using hb.symm
      simp [getLatestOllamaVersion, hn, decodeGitHubRelease, hd, Except.map,
        exceptIsOk, hany]
  · intro h
    simp [getLatestOllamaVersion, h]
  · intro fields hn hnull
    simp [getLatestOllamaVersion, hn, decodeGitHubRelease, Except.map,
      decodeFieldsTag_nulls fields hnull ""]

/-- C5 witness: the result is unchanged when later responses differ (no
retry), and an object body whose only tag-name field is null yields success
with the empty string. -/
theorem getLatestOllamaVersion_error_spec_witness :
    getLatestOllamaVersion (fun _ => NetResult.fetchErr)
        = getLatestOllamaVersion (fun n => if n = 0 then NetResult.fetchErr else NetResult.badJson)
    ∧ getLatestOllamaVersion (fun _ => NetResult.body (Json.obj [("tag_name", Json.null)]))
        = Except.ok "" :=
  ⟨(getLatestOllamaVersion_error_spec (fun _ => NetResult.fetchErr)
      (fun n => if n = 0 then NetResult.fetchErr else NetResult.badJson)).2.2.1 rfl,
    (getLatestOllamaVersion_error_spec
      (fun _ => NetResult.body (Json.obj [("tag_name", Json.null)]))
      (fun _ => NetResult.fetchErr)).2.2.2 _ rfl (by
        intro a b hab hm
        simp only [List.mem_singleton] at hab
        rw [Prod.mk.injEq] at hab
        exact hab.2)⟩

/-- C3: getDownloadURL is deterministic string formatting: it returns the
fixed prefix, the version verbatim, and the fixed asset filename; on
"v0.5.2" it yields the expected release URL, the URL ends with the asset
filename, and it contains the version token verbatim. -/
theorem getDownloadURL_spec (v : String) :
    getDownloadURL v
      = "https://github.com/ollama/ollama/releases/download/" ++ v ++ "/ollama-linux-amd64.tgz"
    ∧ getDownloadURL "v0.5.2"
      = "https://github.com/ollama/ollama/releases/download/v0.5.2/ollama-linux-amd64.tgz"
    ∧ (∃ t, getDownloadURL v = t ++ "ollama-linux-amd64.tgz")
    ∧ (∃ a b, getDownloadURL v = a ++ (v ++ b)) := by
  have hsplit : ("/ollama-linux-amd64.tgz" : String) = "/" ++ "ollama-linux-amd64.tgz" := by
    decide
  refine ⟨rfl, by decide,
    ⟨"https://github.com/ollama/ollama/releases/download/" ++ v ++ "/", ?_⟩,
    ⟨"https://github.com/ollama/ollama/releases/download/", "/ollama-linux-amd64.tgz", ?_⟩⟩
  · rw [getDownloadURL, hsplit, ← String.append_assoc]
  · rw [getDownloadURL, String.append_assoc]

/-- C1: updatePath is idempotent: when any candidate file already contains
the export line it succeeds without writing, and starting from a home
directory with no occurrence, a successful run leaves exactly one
occurrence across the candidate files and a second run detects it and
performs no write. -/
theorem updatePath_idempotent (fs : FS) :
    (configFiles.any (fun f => fileHasLine fs f) = true → updatePath fs = (fs, true))
    ∧ (countOcc fs = 0 → (updatePath fs).2 = true →
        countOcc (updatePath fs).1 = 1
          ∧ updatePath (updatePath fs).1 = ((updatePath fs).1, true)) := by
  constructor
  · intro h
    simp [updatePath, h]
  · intro h0 hok
    have hany := any_false_of_countOcc_zero fs h0
    rw [updatePath_eq fs hany] at hok ⊢
    by_cases c1 : fileExists fs ".zshrc" && fs.writable ".zshrc"
    · simp only [c1, if_true]
      exact writeAppended_success fs ".zshrc" (by decide) h0
    · simp only [c1, if_false] at hok ⊢
      by_cases c2 : fs.writable ".bash_profile"
      · simp only [c2, if_true]
        exact writeAppended_success fs ".bash_profile" (by decide) h0
      · simp only [c2, if_false] at hok ⊢
        by_cases c3 : fs.writable ".bashrc"
        · simp only [c3, if_true]
          exact writeAppended_success fs ".bashrc" (by decide) h0
        · simp only [c3, if_false] at hok ⊢
          by_cases c4 : fs.writable ".profile"
          · simp only [c4, if_true]
            exact writeAppended_success fs ".profile" (by decide) h0
          · simp only [c4, if_false] at hok
            simp at hok

/-- C1 witness: a run on a directory already holding the line is a
successful no-op, and on an empty directory one run leaves exactly one
occurrence which the second run detects without writing. -/
theorem updatePath_idempotent_witness :
    updatePath fsWithLine = (fsWithLine, true)
    ∧ (countOcc (updatePath fsEmptyAll).1 = 1
        ∧ updatePath (updatePath fsEmptyAll).1 = ((updatePath fsEmptyAll).1, true)) :=
  ⟨(updatePath_idempotent fsWithLine).1 (by decide),
    (updatePath_idempotent fsEmptyAll).2 (by decide) (by decide)⟩

/-- C10: the presence check matches by substring: if any line of any
candidate file contains the export line as a substring, including inside a
longer or commented-out line, updatePath reports success and writes to no
file. -/
theorem updatePath_substring_match (fs : FS) (f : String) (c : List Char)
    (hf : f ∈ configFiles) (hc : fs.contents f = some c)
    (hl : ∃ l ∈ splitLines c, containsSub pathExportL l = true) :
    updatePath fs = (fs, true) := by
  have hline : fileHasLine fs f = true := by
    obtain ⟨l, hm, hsub⟩ := hl
    simp only [fileHasLine, hc, linePresent]
    exact List.any_eq_true.mpr ⟨l, hm, by simpa [matchLine] using hsub⟩
  have hany : configFiles.any (fun g => fileHasLine fs g) = true :=
    List.any_eq_true.mpr ⟨f, hf, hline⟩
  simp [updatePath, hany]

/-- C10 witness: a commented-out occurrence in .bashrc makes updatePath a
successful no-op even though no file is writable. -/
theorem updatePath_substring_match_witness :
    updatePath fsCommented = (fsCommented, true) :=
  updatePath_substring_match fsCommented ".bashrc"
    ("# export PATH=\"$HOME/bin:$PATH\"".data) (by decide) rfl (by decide)

/-- C9: whenever updatePath mutates a candidate file, the appended text is
exactly the literal export line preceded and followed by a line break: the
new content is the old content (empty when the file was absent) followed by
a newline, the exact literal, and a newline. -/
theorem updatePath_append_exact (fs : FS) (f : String)
    (h : (updatePath fs).1.contents f ≠ fs.contents f) :
    (updatePath fs).1.contents f
      = some (((fs.contents f).getD []) ++ ('\n' :: (pathExportL ++ ['\n']))) := by
  by_cases hany : configFiles.any (fun g => fileHasLine fs g) = true
  · exact absurd (by simp [updatePath, hany]) h
  · have hany' : configFiles.any (fun g => fileHasLine fs g) = false := by
      simpa using hany
    rw [updatePath_eq fs hany'] at h ⊢
    by_cases c1 : fileExists fs ".zshrc" && fs.writable ".zshrc"
    · simp only [c1, if_true] at h ⊢
      by_cases hef : f = ".zshrc"
      · subst hef; simp [writeAppended]
      · exact absurd (by simp [writeAppended, hef]) h
    · simp only [c1, if_false] at h ⊢
      by_cases c2 : fs.writable ".bash_profile"
      · simp only [c2, if_true] at h ⊢
        by_cases hef : f = ".bash_profile"
        · subst hef; simp [writeAppended]
        · exact absurd (by simp [writeAppended, hef]) h
      · simp only [c2, if_false] at h ⊢
        by_cases c3 : fs.writable ".bashrc"
        · simp only [c3, if_true] at h ⊢
          by_cases hef : f = ".bashrc"
          · subst hef; simp [writeAppended]
          · exact absurd (by simp [writeAppended, hef]) h
        · simp only [c3, if_false] at h ⊢
          by_cases c4 : fs.writable ".profile"
          · simp only [c4, if_true] at h ⊢
            by_cases hef : f = ".profile"
            · subst hef; simp [writeAppended]
            · exact absurd (by simp [writeAppended, hef]) h
          · simp only [c4, if_false] at h
            exact absurd rfl h

/-- C9 witness: on an empty home directory the mutated file .bash_profile
receives exactly a newline, the export literal, and a newline. -/
theorem updatePath_append_exact_witness :
    (updatePath fsEmptyAll).1.contents ".bash_profile"
      = some (((fsEmptyAll.contents ".bash_profile").getD [])
          ++ ('\n' :: (pathExportL ++ ['\n']))) :=
  updatePath_append_exact fsEmptyAll ".bash_profile" (by decide)

/-- C6 counterexample: with .bashrc the only existing candidate and no file
containing the line, the claim requires the append to go to the first
existing candidate (.bashrc), with the absent non-final candidates skipped;
the code instead creates the absent .bash_profile and leaves .bashrc
untouched. -/
theorem updatePath_creates_absent_bash_profile :
    fsOnlyBashrc.contents ".bash_profile" = none
    ∧ fsOnlyBashrc.contents ".bashrc" = some []
    ∧ (updatePath fsOnlyBashrc).1.contents ".bash_profile"
        = some ('\n' :: (pathExportL ++ ['\n']))
    ∧ (updatePath fsOnlyBashrc).1.contents ".bashrc" = some []
    ∧ (updatePath fsOnlyBashrc).2 = true := by
  decide

/-- C6 (amended): when no candidate contains the line, updatePath appends
to .zshrc only when .zshrc exists and its append succeeds; otherwise it
tries .bash_profile, then .bashrc, then .profile, each unconditionally
(created if absent), stopping at the first successful append and failing
only when every append fails; in particular a home directory with no shell
configuration files gets .bash_profile created containing exactly the
export line. -/
theorem updatePath_fallback_spec (fs : FS)
    (h : ∀ f ∈ configFiles, fileHasLine fs f = false) :
    (fileExists fs ".zshrc" = true → fs.writable ".zshrc" = true →
      updatePath fs = (writeAppended fs ".zshrc" pathExportL, true))
    ∧ ((fileExists fs ".zshrc" = false ∨ fs.writable ".zshrc" = false) →
        fs.writable ".bash_profile" = true →
        updatePath fs = (writeAppended fs ".bash_profile" pathExportL, true))
    ∧ ((fileExists fs ".zshrc" = false ∨ fs.writable ".zshrc" = false) →
        fs.writable ".bash_profile" = false → fs.writable ".bashrc" = true →
        updatePath fs = (writeAppended fs ".bashrc" pathExportL, true))
    ∧ ((fileExists fs ".zshrc" = false ∨ fs.writable ".zshrc" = false) →
        fs.writable ".bash_profile" = false → fs.writable ".bashrc" = false →
        fs.writable ".profile" = true →
        updatePath fs = (writeAppended fs ".profile" pathExportL, true))
    ∧ ((fileExists fs ".zshrc" = false ∨ fs.writable ".zshrc" = false) →
        fs.writable ".bash_profile" = false → fs.writable ".bashrc" = false →
        fs.writable ".profile" = false → updatePath fs = (fs, false))
    ∧ ((∀ f ∈ configFiles, fs.contents f = none) → fs.writable ".bash_profile" = true →
        (updatePath fs).1.contents ".bash_profile" = some ('\n' :: (pathExportL ++ ['\n']))
          ∧ (updatePath fs).2 = true) := by
  have hany : configFiles.any (fun f => fileHasLine fs f) = false := by
    rw [List.any_eq_false]
    intro f hf
    simp [h f hf]
  have hchar := updatePath_eq fs hany
  refine ⟨?_, ?_, ?_, ?_, ?_, ?_⟩
  · intro he hw
    rw [hchar]
    simp [he, hw]
  · intro hz hw
    rw [hchar]
    have hc1 : (fileExists fs ".zshrc" && fs.writable ".zshrc") = false := by
      rcases hz with hz | hz <;> simp [hz]
    simp [hc1, hw]
  · intro hz h2 hw
    rw [hchar]
    have hc1 : (fileExists fs ".zshrc" && fs.writable ".zshrc") = false := by
      rcases hz with hz | hz <;> simp [hz]
    simp [hc1, h2, hw]
  · intro hz h2 h3 hw
    rw [hchar]
    have hc1 : (fileExists fs ".zshrc" && fs.writable ".zshrc") = false := by
      rcases hz with hz | hz <;> simp [hz]
    simp [hc1, h2, h3, hw]
  · intro hz h2 h3 h4
    rw [hchar]
    have hc1 : (fileExists fs ".zshrc" && fs.writable ".zshrc") = false := by
      rcases hz with hz | hz <;> simp [hz]
    simp [hc1, h2, h3, h4]
  · intro hnone hw
    have hz : fileExists fs ".zshrc" = false := by
      simp [fileExists, hnone ".zshrc" (by decide)]
    have hbp : fs.contents ".bash_profile" = none := hnone ".bash_profile" (by decide)
    rw [hchar]
    simp [hz, hw, writeAppended, hbp]

/-- C6 witness: a home directory with no shell configuration files gets
.bash_profile created containing exactly the export line, and the run
succeeds. -/
theorem updatePath_fallback_spec_witness :
    (updatePath fsEmptyAll).1.contents ".bash_profile"
      = some ('\n' :: (pathExportL ++ ['\n']))
    ∧ (updatePath fsEmptyAll).2 = true :=
  (updatePath_fallback_spec fsEmptyAll (by decide)).2.2.2.2.2 (by decide) rfl

/-- C2: if the download (curl) or extraction (tar) step exits nonzero,
installOllama returns an error and neither the relocation (mv) nor the
permission (chmod) step appears in the run's trace, so nothing was moved to
the final binary path by that run (mv is the only operation whose
destination is the final binary path). -/
theorem installOllama_early_abort (w : World) (url : String)
    (h : w.curlOk = false ∨ w.tarOk = false) :
    (installOllama w url).ok = false
    ∧ ((installOllama w url).trace.all fun c => !isMvCmd c && !isChmodCmd c) = true := by
  by_cases hc : w.curlOk
  · have ht : w.tarOk = false := by
      rcases h with h | h
      · exact absurd hc (by simp [h])
      · exact h
    by_cases hm : w.mkdirBinOk
    · simp [installOllama, hc, hm, ht, isMvCmd, isChmodCmd]
    · simp [installOllama, hc, hm, isMvCmd, isChmodCmd]
  · have hc' : w.curlOk = false := by simpa using hc
    simp [installOllama, hc', isMvCmd, isChmodCmd]

/-- C2 witness: a failed extraction on an otherwise healthy world returns
an error with no mv and no chmod in the trace. -/
theorem installOllama_early_abort_witness :
    (installOllama
        { userHome := some "/home/u", curlOk := true, mkdirBinOk := true,
          tarOk := false, mvOk := true, chmodOk := true, shellFS := fsEmptyAll }
        "https://example.invalid/a.tgz").ok = false
    ∧ ((installOllama
        { userHome := some "/home/u", curlOk := true, mkdirBinOk := true,
          tarOk := false, mvOk := true, chmodOk := true, shellFS := fsEmptyAll }
        "https://example.invalid/a.tgz").trace.all
          fun c => !isMvCmd c && !isChmodCmd c) = true :=
  installOllama_early_abort _ _ (Or.inr rfl)

/-- C7: a failure of updatePath does not fail the overall installation:
when the PATH update reports failure and every checked external step
succeeded, installOllama prints the warning and still returns success. -/
theorem installOllama_pathFailure_nonfatal (w : World) (url : String)
    (hupd : (updatePath w.shellFS).2 = false)
    (hc : w.curlOk = true) (hm : w.mkdirBinOk = true) (ht : w.tarOk = true)
    (hmv : w.mvOk = true) (hch : w.chmodOk = true) :
    (installOllama w url).ok = true ∧ (installOllama w url).pathWarn = true := by
  simp [installOllama, hc, hm, ht, hmv, hch, hupd]

/-- C7 witness: with every shell-configuration append failing, the install
still returns success, with the warning flagged. -/
theorem installOllama_pathFailure_nonfatal_witness :
    (installOllama
        { userHome := some "/home/u", curlOk := true, mkdirBinOk := true,
          tarOk := true, mvOk := true, chmodOk := true, shellFS := fsNoWrite }
        "https://example.invalid/a.tgz").ok = true
    ∧ (installOllama
        { userHome := some "/home/u", curlOk := true, mkdirBinOk := true,
          tarOk := true, mvOk := true, chmodOk := true, shellFS := fsNoWrite }
        "https://example.invalid/a.tgz").pathWarn = true :=
  installOllama_pathFailure_nonfatal _ _ (by decide) rfl rfl rfl rfl rfl

/-- C8: when the home-directory lookup fails, installOllama discards the
error and proceeds with the empty string as home: the run equals the run
with home "", the download still starts, and on a fully successful run
every derived path (temp archive, bin directory, scratch directory, final
binary) is relative to the empty home. -/
theorem installOllama_emptyHome (w : World) (url : String)
    (h : w.userHome = none) :
    resolvedHome w = ""
    ∧ (installOllama w url).trace.head? = some (Cmd.curl url "ollama.tgz")
    ∧ installOllama w url = installOllama { w with userHome := some "" } url
    ∧ (w.curlOk = true → w.mkdirBinOk = true → w.tarOk = true → w.mvOk = true →
        w.chmodOk = true →
        (installOllama w url).trace
          = [Cmd.curl url "ollama.tgz", Cmd.mkdirAll "bin",
              Cmd.removeAll "ollama-extract", Cmd.mkdirAll "ollama-extract",
              Cmd.tar "ollama.tgz" "ollama-extract",
              Cmd.mv "ollama-extract/bin/ollama" "bin/ollama",
              Cmd.chmod "bin/ollama", Cmd.removeFile "ollama.tgz",
              Cmd.removeAll "ollama-extract", Cmd.updatePathCall ""]
          ∧ (installOllama w url).ok = true) := by
  have hr : resolvedHome w = "" := by simp [resolvedHome, h]
  have g1 : goJoin "" "ollama.tgz" = "ollama.tgz" := by decide
  have g2 : goJoin "" "bin" = "bin" := by decide
  have g3 : goJoin "" "ollama-extract" = "ollama-extract" := by decide
  have g4 : goJoin (goJoin "" "bin") "ollama" = "bin/ollama" := by decide
  have g5 : goJoin (goJoin (goJoin "" "ollama-extract") "bin") "ollama"
      = "ollama-extract/bin/ollama" := by decide
  have g6 : goJoin (goJoin "ollama-extract" "bin") "ollama"
      = "ollama-extract/bin/ollama" := by decide
  have g7 : goJoin "bin" "ollama" = "bin/ollama" := by decide
  refine ⟨hr, ?_, ?_, ?_⟩
  · by_cases h1 : w.curlOk <;> by_cases h2 : w.mkdirBinOk <;> by_cases h3 : w.tarOk <;>
      by_cases h4 : w.mvOk <;> by_cases h5 : w.chmodOk <;>
        simp [installOllama, h1, h2, h3, h4, h5, hr, g1]
  · simp [installOllama, resolvedHome, h]
  · intro f1 f2 f3 f4 f5
    constructor
    · simp [installOllama, f1, f2, f3, f4, f5, hr, g1, g2, g3, g4, g5, g6, g7]
    · simp [installOllama, f1, f2, f3, f4, f5]

/-- C8 witness: a run with a failed home lookup and all steps healthy
produces the relative-path trace and succeeds. -/
theorem installOllama_emptyHome_witness :
    resolvedHome
        { userHome := none, curlOk := true, mkdirBinOk := true, tarOk := true,
          mvOk := true, chmodOk := true, shellFS := fsEmptyAll } = ""
    ∧ (installOllama
        { userHome := none, curlOk := true, mkdirBinOk := true, tarOk := true,
          mvOk := true, chmodOk := true, shellFS := fsEmptyAll } "u").trace
        = [Cmd.curl "u" "ollama.tgz", Cmd.mkdirAll "bin",
            Cmd.removeAll "ollama-extract", Cmd.mkdirAll "ollama-extract",
            Cmd.tar "ollama.tgz" "ollama-extract",
            Cmd.mv "ollama-extract/bin/ollama" "bin/ollama",
            Cmd.chmod "bin/ollama", Cmd.removeFile "ollama.tgz",
            Cmd.removeAll "ollama-extract", Cmd.updatePathCall ""]
    ∧ (installOllama
        { userHome := none, curlOk := true, mkdirBinOk := true, tarOk := true,
          mvOk := true, chmodOk := true, shellFS := fsEmptyAll } "u").ok = true :=
  ⟨(installOllama_emptyHome _ "u" rfl).1,
    ((installOllama_emptyHome _ "u" rfl).2.2.2 rfl rfl rfl rfl rfl).1,
    ((installOllama_emptyHome _ "u" rfl).2.2.2 rfl rfl rfl rfl rfl).2⟩
